import Mathlib

/-!
# Chat relay server: the event loop of `server.c`

A shallow embedding of the event loop of `main` in `src/server.c` (lines 100-191) and of
`get_client_address` (lines 33-42).

* The connection table `int client_socket[MAX_CLIENTS]` is a `List Int`; the C type fixes its
  length at `MAX_CLIENTS`, which theorems assume as `client_socket.length = MAX_CLIENTS`.
* Byte strings are `List Nat` (one number per `char`); a C string ends at its first `0`.
* What the operating system answers in one iteration (the result of `select`, `accept`, `read`,
  `getpeername`) is an `Env`.  Lines 101-112, which only build the argument of `select`, are
  not modelled: `Env.readfds` is the set as `select` left it.  The return values of `send`,
  `sendto` and `close` are discarded by the source, so they do not appear in `Env`.
* A `send` on a stream socket whose peer is gone can raise `SIGPIPE` instead of returning; the
  source installs no handler and passes flags `0`, so the signal ends the process.  Which sends
  do so is a `Signals`; `process_iteration` is the iteration with that taken into account, and
  `iteration` is the iteration in which every `send` returns.
* What the server does to the outside world is a list of `Effect`s (`send`, `close`, `sendto`), in
  program order.  Output on stdout/stderr (`printf`, `perror`) is not modelled.
* `exit(EXIT_FAILURE)`, the store of line 161 at a negative index and death by a signal are
  results of type `Abort`.
-/

namespace ChatServer

/-! ## Constants -/

/-- Capacity of the table: `#define MAX_CLIENTS 5`. -/
def MAX_CLIENTS : Nat := 5

/-- Largest read: `#define BUFFER_SIZE 1024`. -/
def BUFFER_SIZE : Nat := 1024

/-- The value of `EXIT_FAILURE` of `stdlib.h`. -/
def EXIT_FAILURE : Nat := 1

/-- The bytes of a C string literal, with its terminating NUL. -/
def c_literal (s : String) : List Nat := s.toList.map Char.toNat ++ [0]

/-- The beacon: `#define DISCOVERY_MSG "CHAT_SERVER_HERE"`. -/
def DISCOVERY_MSG : List Nat := c_literal "CHAT_SERVER_HERE"

/-- The literal passed to `send` on line 143. -/
def SERVER_FULL_MSG : List Nat := c_literal "Server is full. Try again later.\n"

/-! ## C strings -/

/-- The function `strlen`: the number of bytes before the first NUL. -/
def strlen (buf : List Nat) : Nat := (buf.takeWhile (fun c => c != 0)).length

/-- The bytes a `%s` conversion reads from a buffer: everything before the first NUL. -/
def c_string (buf : List Nat) : List Nat := buf.takeWhile (fun c => c != 0)

/-- Decimal digits of `n`, most significant first, as ASCII (`%d` of a non-negative value);
`fuel` bounds the number of digits. -/
def decimal_digits : Nat → Nat → List Nat
  | 0, _ => []
  | fuel + 1, n => if n < 10 then [48 + n] else decimal_digits fuel (n / 10) ++ [48 + n % 10]

/-- The conversion `%d` of a non-negative value. -/
def decimal (n : Nat) : List Nat := decimal_digits (n + 1) n

/-! ## Peer addresses -/

/-- The part of `struct sockaddr_in` that `getpeername` fills in: `sin_addr` is the IPv4 address
as a 32-bit number whose most significant byte is the first octet, `sin_port` the port in host
order (`ntohs(addr.sin_port)`). -/
structure SockAddr where
  sin_addr : Nat
  sin_port : Nat
  deriving DecidableEq, Repr

/-- The function `inet_ntoa`: dotted-decimal text of the four octets. -/
def inet_ntoa (a : Nat) : List Nat :=
  decimal (a / 2 ^ 24 % 256) ++ [46] ++ decimal (a / 2 ^ 16 % 256) ++ [46] ++
    decimal (a / 2 ^ 8 % 256) ++ [46] ++ decimal (a % 256)

/-- The function `get_client_address` (lines 33-42): the text written to `addr_buf`, without its NUL.
`peer` is the outcome of `getpeername`: `none` when it fails. -/
def get_client_address (peer : Option SockAddr) : List Nat :=
  match peer with
  | none => (c_literal "unknown").take (strlen (c_literal "unknown"))
  | some addr => inet_ntoa addr.sin_addr ++ [58] ++ decimal (addr.sin_port % 65536)

/-! ## State, environment, effects -/

/-- The variables of `main` that live across iterations of the loop. -/
structure Server where
  client_socket : List Int
  num_clients : Int
  deriving DecidableEq, Repr

/-- Lines 47-48: `int client_socket[MAX_CLIENTS] = {0}; int num_clients = 0;` -/
def Server.init : Server := { client_socket := List.replicate MAX_CLIENTS 0, num_clients := 0 }

/-- Outcome of `read(sd, buffer, BUFFER_SIZE)`: the bytes the peer has pending (of which at most
`BUFFER_SIZE` are taken; none means end of stream), or a failure (return value `-1`). -/
inductive ReadOutcome where
  | returned (pending : List Nat)
  | failed
  deriving DecidableEq, Repr

/-- What the operating system answers during one iteration of the loop. -/
structure Env where
  /-- return value of `select` -/
  activity : Int
  /-- members of `readfds` after `select` returned -/
  readfds : List Int
  /-- return value of `accept` (consulted only if the listener is in `readfds`) -/
  accepted : Int
  /-- outcome of the `read` made for slot `i` (consulted only if that slot is served) -/
  reads : Nat → ReadOutcome
  /-- outcome of `getpeername` on a descriptor -/
  getpeername : Int → Option SockAddr

/-- Calls with an effect outside the process. -/
inductive Effect where
  | send (fd : Int) (bytes : List Nat)
  | close (fd : Int)
  | sendto (bytes : List Nat)
  deriving DecidableEq, Repr

/-- Ways an iteration does not reach the next one. -/
inductive Abort where
  /-- the call `exit(status)` -/
  | exit (status : Nat)
  /-- the store `buffer[valread] = 0` of line 161 with a negative `valread`, outside `buffer` -/
  | out_of_bounds
  /-- a signal whose default action ends the process -/
  | signal (number : Nat)
  deriving DecidableEq, Repr

/-- Number of occupied (non-zero) slots. -/
def occupied (cs : List Int) : Nat := (cs.filter (fun x => x != 0)).length

/-! ## Accepting a connection (lines 125-146) -/

/-- Lines 134-140: scan the slots `idx` in order; store `new_socket` in the first one that holds
`0`, count it, and stop. -/
def store_first_free (new_socket : Int) : List Nat → Server → Server
  | [], s => s
  | i :: rest, s =>
    if s.client_socket.getD i 0 = 0 then
      { client_socket := s.client_socket.set i new_socket, num_clients := s.num_clients + 1 }
    else store_first_free new_socket rest s

/-- Lines 133-145: the accepted descriptor is stored if `num_clients < MAX_CLIENTS`, and is
otherwise sent the first 33 bytes of the literal and closed. -/
def register_client (s : Server) (new_socket : Int) : Server × List Effect :=
  if s.num_clients < MAX_CLIENTS then
    (store_first_free new_socket (List.range MAX_CLIENTS) s, [])
  else
    (s, [Effect.send new_socket (SERVER_FULL_MSG.take 33), Effect.close new_socket])

/-- Lines 125-146: if the listener is readable, `accept`; a negative result ends the process. -/
def accept_phase (master_socket : Int) (s : Server) (e : Env) :
    Except Abort (Server × List Effect) :=
  if master_socket ∈ e.readfds then
    if e.accepted < 0 then Except.error (Abort.exit EXIT_FAILURE)
    else Except.ok (register_client s e.accepted)
  else Except.ok (s, [])

/-! ## Serving a readable peer (lines 149-184) -/

/-- Return value of `read`. -/
def ReadOutcome.valread : ReadOutcome → Int
  | ReadOutcome.returned pending => ((pending.take BUFFER_SIZE).length : Int)
  | ReadOutcome.failed => -1

/-- Bytes that `read` stored at the start of `buffer`. -/
def ReadOutcome.stored : ReadOutcome → List Nat
  | ReadOutcome.returned pending => pending.take BUFFER_SIZE
  | ReadOutcome.failed => []

/-- Line 164: `if (buffer[strlen(buffer) - 1] == '\n') buffer[strlen(buffer) - 1] = '\0';`.
With `strlen(buffer) = 0` the index `strlen(buffer) - 1` wraps around and the byte tested, and
zeroed if it is a newline, is the one just before `buffer` in memory: no byte of `buffer`
changes, whatever that byte is, and the pass goes on with the empty string.  That byte is taken
to belong to no variable of the model. -/
def strip_newline (buffer : List Nat) : Except Abort (List Nat) :=
  if strlen buffer = 0 then Except.ok buffer
  else if buffer.getD (strlen buffer - 1) 0 = 10 then
    Except.ok (buffer.set (strlen buffer - 1) 0)
  else Except.ok buffer

/-- Line 171: `snprintf(broadcast_msg, sizeof(broadcast_msg), "%s %s", sender_addr, buffer)`
with `char broadcast_msg[BUFFER_SIZE + 50]`: the array after the call, up to its NUL. -/
def format_broadcast (sender_addr buffer : List Nat) : List Nat :=
  (sender_addr ++ [32] ++ c_string buffer).take (BUFFER_SIZE + 50 - 1) ++ [0]

/-- Lines 172-180, the slots the loop sends to: those `j` with
`dest_sd > 0 && dest_sd != sd`, in loop order. -/
def fanout_slots (cs : List Int) (sd : Int) : List Nat :=
  (List.range MAX_CLIENTS).filter (fun j => decide (0 < cs.getD j 0 ∧ cs.getD j 0 ≠ sd))

/-- Lines 167-181, the slots sent to: none if `num_clients < 2`. -/
def relay_slots (num_clients : Int) (cs : List Int) (sd : Int) : List Nat :=
  if num_clients < 2 then [] else fanout_slots cs sd

/-- Lines 167-181: each slot of `relay_slots` is sent the first `strlen(broadcast_msg)` bytes
of `broadcast_msg`. -/
def relay (num_clients : Int) (cs : List Int) (sd : Int) (sender_addr buffer : List Nat) :
    List Effect :=
  (relay_slots num_clients cs sd).map (fun j =>
    Effect.send (cs.getD j 0)
      ((format_broadcast sender_addr buffer).take (strlen (format_broadcast sender_addr buffer))))

/-- Lines 154-159: `close(sd); client_socket[i] = 0; num_clients--;` -/
def evict (s : Server) (i : Nat) : Server × List Effect :=
  ({ client_socket := s.client_socket.set i 0, num_clients := s.num_clients - 1 },
    [Effect.close (s.client_socket.getD i 0)])

/-- Lines 150-183, one pass of the body of the message loop for slot `i`.  After
`buffer[valread] = '\0'` no byte of `buffer` past index `valread` is inspected, so `buffer` is
modelled by its first `valread + 1` bytes. -/
def serve_slot (e : Env) (i : Nat) (s : Server) : Except Abort (Server × List Effect) :=
  let sd := s.client_socket.getD i 0
  if 0 < sd ∧ sd ∈ e.readfds then
    if (e.reads i).valread = 0 then Except.ok (evict s i)
    else if (e.reads i).valread < 0 then Except.error Abort.out_of_bounds
    else
      match strip_newline ((e.reads i).stored ++ [0]) with
      | Except.error a => Except.error a
      | Except.ok buffer =>
        Except.ok (s, relay s.num_clients s.client_socket sd
          (get_client_address (e.getpeername sd)) buffer)
  else Except.ok (s, [])

/-- Lines 149-184: the slots `idx` are served in order, each on the state the previous left. -/
def message_loop (e : Env) : List Nat → Server → Except Abort (Server × List Effect)
  | [], s => Except.ok (s, [])
  | i :: rest, s =>
    match serve_slot e i s with
    | Except.error a => Except.error a
    | Except.ok (s1, eff1) =>
      match message_loop e rest s1 with
      | Except.error a => Except.error a
      | Except.ok (s2, eff2) => Except.ok (s2, eff1 ++ eff2)

/-! ## Discovery beacon (lines 186-190) and the whole iteration -/

/-- Lines 187-190: `sendto(discovery_socket, DISCOVERY_MSG, strlen(DISCOVERY_MSG), ...)` if
`activity == 0`. -/
def announce (activity : Int) : List Effect :=
  if activity = 0 then [Effect.sendto (DISCOVERY_MSG.take (strlen DISCOVERY_MSG))] else []

/-- One iteration of `while (1)` (lines 100-191), from the return of `select`, when every `send`
returns to the caller (with a byte count or with `-1`); `process_iteration` below adds the
sends that raise `SIGPIPE`. -/
def iteration (master_socket : Int) (s : Server) (e : Env) :
    Except Abort (Server × List Effect) :=
  match accept_phase master_socket s e with
  | Except.error a => Except.error a
  | Except.ok (s1, eff1) =>
    match message_loop e (List.range MAX_CLIENTS) s1 with
    | Except.error a => Except.error a
    | Except.ok (s2, eff2) => Except.ok (s2, eff1 ++ eff2 ++ announce e.activity)

/-! ## Signals raised by `send` -/

/-- The number of `SIGPIPE` on Linux. -/
def SIGPIPE : Nat := 13

/-- Which of the `send` calls of one iteration raise `SIGPIPE` instead of returning. -/
structure Signals where
  /-- whether the `send` of line 143, to the rejected connection, raises it -/
  reject_send : Bool
  /-- whether the `send` of line 175 to descriptor `fd`, made while slot `i` is served,
  raises it -/
  relay_send : Nat → Int → Bool

/-- Whether one of the `send` calls in `eff` raises `SIGPIPE`, `raised fd` telling it for the
`send` to descriptor `fd`. -/
def raises_sigpipe (raised : Int → Bool) (eff : List Effect) : Bool :=
  eff.any (fun x =>
    match x with
    | Effect.send fd _ => raised fd
    | _ => false)

/-- Outcome of a stretch of code whose calls are `r` when every `send` returns: in
`accept_phase` and in `serve_slot` nothing aborts after the first `send`, so the stretch dies
of `SIGPIPE` exactly when it does not abort first and one of its sends raises the signal. -/
def deliver (raised : Int → Bool) (r : Except Abort (Server × List Effect)) :
    Except Abort (Server × List Effect) :=
  match r with
  | Except.error a => Except.error a
  | Except.ok (s1, eff) =>
    if raises_sigpipe raised eff then Except.error (Abort.signal SIGPIPE) else Except.ok (s1, eff)

/-- Lines 149-184 with signals: as `message_loop`, but the process dies in the first pass in
which a `send` raises `SIGPIPE`. -/
def process_messages (e : Env) (g : Signals) :
    List Nat → Server → Except Abort (Server × List Effect)
  | [], s => Except.ok (s, [])
  | i :: rest, s =>
    match deliver (g.relay_send i) (serve_slot e i s) with
    | Except.error a => Except.error a
    | Except.ok (s1, eff1) =>
      match process_messages e g rest s1 with
      | Except.error a => Except.error a
      | Except.ok (s2, eff2) => Except.ok (s2, eff1 ++ eff2)

/-- One iteration of `while (1)` (lines 100-191) with signals.  The `sendto` of line 188 is on a
datagram socket and raises no `SIGPIPE`. -/
def process_iteration (master_socket : Int) (s : Server) (e : Env) (g : Signals) :
    Except Abort (Server × List Effect) :=
  match deliver (fun _ => g.reject_send) (accept_phase master_socket s e) with
  | Except.error a => Except.error a
  | Except.ok (s1, eff1) =>
    match process_messages e g (List.range MAX_CLIENTS) s1 with
    | Except.error a => Except.error a
    | Except.ok (s2, eff2) => Except.ok (s2, eff1 ++ eff2 ++ announce e.activity)

/-- No `send` of the iteration raises `SIGPIPE`. -/
def no_sigpipe (g : Signals) : Prop :=
  g.reject_send = false ∧ ∀ i fd, g.relay_send i fd = false

/-- The bytes of a text, without a terminating NUL. -/
def text (s : String) : List Nat := s.toList.map Char.toNat

/-! ## Predicates on the table -/

/-- Every slot holds `0` (free) or a positive descriptor. -/
def positive_slots (cs : List Int) : Prop := ∀ x ∈ cs, 0 ≤ x

/-- No two occupied slots hold the same descriptor. -/
def distinct_slots (cs : List Int) : Prop :=
  ∀ j, j < cs.length → ∀ k, k < cs.length →
    cs.getD j 0 ≠ 0 → cs.getD j 0 = cs.getD k 0 → j = k

instance (cs : List Int) : Decidable (positive_slots cs) := by
  unfold positive_slots; infer_instance

instance (cs : List Int) : Decidable (distinct_slots cs) := by
  unfold distinct_slots; infer_instance

/-! ## Sample states and environments -/

/-- Three peers, in slots 0, 2 and 3. -/
def three_peers : Server := { client_socket := [4, 0, 7, 9, 0], num_clients := 3 }

/-- Two peers, in slots 0 and 1. -/
def two_peers : Server := { client_socket := [4, 5, 0, 0, 0], num_clients := 2 }

/-- An environment in which descriptor `fd` is readable, every `read` returns `pending`,
`getpeername` fails, and `select` returned `1`. -/
def env_reading (fd : Int) (pending : ReadOutcome) : Env :=
  { activity := 1, readfds := [fd], accepted := 0, reads := fun _ => pending,
    getpeername := fun _ => none }

/-- An environment in which only the listener `master_socket` is readable and `accept`
returns `fd`. -/
def env_accepting (master_socket fd : Int) : Env :=
  { activity := 1, readfds := [master_socket], accepted := fd,
    reads := fun _ => ReadOutcome.returned [], getpeername := fun _ => none }

/-- Signals of an iteration in which every `send` returns. -/
def quiet : Signals := { reject_send := false, relay_send := fun _ _ => false }

/-- Signals of an iteration in which the `send` to descriptor `fd` raises `SIGPIPE`. -/
def broken_pipe (fd : Int) : Signals :=
  { reject_send := false, relay_send := fun _ d => decide (d = fd) }

/-- The payload with a single trailing newline removed if one is present, as the specification
words it. -/
def spec_trim (payload : List Nat) : List Nat :=
  if payload.getLast? = some 10 then payload.dropLast else payload

/-- No byte is NUL. -/
def nul_free (l : List Nat) : Prop := ∀ c ∈ l, c ≠ 0

instance (l : List Nat) : Decidable (nul_free l) := by
  unfold nul_free; infer_instance

/-- States the loop can be in at the top of an iteration, when every descriptor that `accept`
returns is positive and different from every descriptor in the table at that moment (the
operating system never hands out a descriptor that is still open). -/
inductive Reachable (master_socket : Int) : Server → Prop where
  | init : Reachable master_socket Server.init
  | step (s s1 : Server) (e : Env) (eff : List Effect) :
      Reachable master_socket s →
      (master_socket ∈ e.readfds → 0 < e.accepted ∧ e.accepted ∉ s.client_socket) →
      iteration master_socket s e = Except.ok (s1, eff) →
      Reachable master_socket s1

/-- The invariant of the connection table. -/
def table_invariant (s : Server) : Prop :=
  s.client_socket.length = MAX_CLIENTS ∧ s.num_clients = occupied s.client_socket ∧
    positive_slots s.client_socket ∧ distinct_slots s.client_socket

/-- Whether an effect is a datagram sent with `sendto`. -/
def is_sendto : Effect → Bool
  | Effect.sendto _ => true
  | _ => false

/-- Every `read` of the iteration returns 0 or more bytes: none fails. -/
def reads_defined (e : Env) : Prop :=
  ∀ i, ∃ pending, e.reads i = ReadOutcome.returned pending

/-! ## Lemmas on lists used as arrays -/

theorem getD_mem_of_lt (cs : List Int) (j : Nat) (h : j < cs.length) : cs.getD j 0 ∈ cs := by
  rw [List.getD_eq_getElem cs 0 h]
  exact List.getElem_mem h

theorem getD_set_self (cs : List Int) (i : Nat) (v : Int) (h : i < cs.length) :
    (cs.set i v).getD i 0 = v := by
  simp [List.getD_eq_getElem?_getD, List.getElem?_set, h]

theorem getD_set_other (cs : List Int) (i j : Nat) (v : Int) (h : i ≠ j) :
    (cs.set i v).getD j 0 = cs.getD j 0 := by
  simp [List.getD_eq_getElem?_getD, List.getElem?_set, h]

theorem getD_eq_zero_of_le (cs : List Int) (j : Nat) (h : cs.length ≤ j) : cs.getD j 0 = 0 := by
  simp [List.getD_eq_getElem?_getD, List.getElem?_eq_none h]

theorem occupied_le_length (cs : List Int) : occupied cs ≤ cs.length :=
  List.length_filter_le _ _

theorem occupied_set_zero (cs : List Int) (i : Nat) (h : cs.getD i 0 ≠ 0) :
    occupied (cs.set i 0) + 1 = occupied cs := by
  induction cs generalizing i with
  | nil => simp at h
  | cons x xs ih =>
    cases i with
    | zero =>
      have hx : x ≠ 0 := by simpa using h
      simp [occupied, List.filter_cons, hx]
    | succ n =>
      have hn : xs.getD n 0 ≠ 0 := by simpa using h
      have := ih n hn
      by_cases hx : x = 0
      · simpa [occupied, List.filter_cons, hx] using this
      · simp only [occupied, List.set_cons_succ, List.filter_cons, bne_iff_ne, ne_eq, hx,
          not_false_eq_true, decide_True, ite_true, List.length_cons] at this ⊢
        omega

theorem occupied_set_new (cs : List Int) (i : Nat) (v : Int) (hi : i < cs.length)
    (h : cs.getD i 0 = 0) (hv : v ≠ 0) : occupied (cs.set i v) = occupied cs + 1 := by
  induction cs generalizing i with
  | nil => simp at hi
  | cons x xs ih =>
    cases i with
    | zero =>
      have hx : x = 0 := by simpa using h
      simp [occupied, List.filter_cons, hx, hv]
    | succ n =>
      have hn : xs.getD n 0 = 0 := by simpa using h
      have hlt : n < xs.length := by simpa using hi
      have := ih n hlt hn
      by_cases hx : x = 0
      · simpa [occupied, List.filter_cons, hx] using this
      · simp only [occupied, List.set_cons_succ, List.filter_cons, bne_iff_ne, ne_eq, hx,
          not_false_eq_true, decide_True, ite_true, List.length_cons] at this ⊢
        omega

theorem exists_free_of_occupied_lt (cs : List Int) (h : occupied cs < cs.length) :
    ∃ k, k < cs.length ∧ cs.getD k 0 = 0 := by
  induction cs with
  | nil => simp at h
  | cons x xs ih =>
    by_cases hx : x = 0
    · exact ⟨0, by simp, by simp [hx]⟩
    · have h2 : occupied xs < xs.length := by
        simp only [occupied, List.filter_cons, bne_iff_ne, ne_eq, hx, not_false_eq_true,
          decide_True, ite_true, List.length_cons] at h ⊢
        omega
      obtain ⟨k, hk, hk0⟩ := ih h2
      exact ⟨k + 1, by simpa using hk, by simpa using hk0⟩

/-! ## The slot scan of the accept path -/

theorem store_first_free_range (new_socket : Int) (s : Server) (n a : Nat)
    (h : ∃ k, a ≤ k ∧ k < a + n ∧ s.client_socket.getD k 0 = 0) :
    ∃ k, a ≤ k ∧ k < a + n ∧ s.client_socket.getD k 0 = 0 ∧
      (∀ j, a ≤ j → j < k → s.client_socket.getD j 0 ≠ 0) ∧
      store_first_free new_socket (List.range' a n) s =
        { client_socket := s.client_socket.set k new_socket,
          num_clients := s.num_clients + 1 } := by
  induction n generalizing a with
  | zero =>
    obtain ⟨k, h1, h2, _⟩ := h
    omega
  | succ n ih =>
    by_cases ha : s.client_socket.getD a 0 = 0
    · refine ⟨a, le_refl a, by omega, ha, ?_, ?_⟩
      · intro j h1 h2; omega
      · simp only [List.range', store_first_free, ha, if_true]
    · obtain ⟨k, h1, h2, h3⟩ := h
      have hka : k ≠ a := fun hk => ha (hk ▸ h3)
      obtain ⟨m, m1, m2, m3, m4, m5⟩ := ih (a + 1) ⟨k, by omega, by omega, h3⟩
      refine ⟨m, by omega, by omega, m3, ?_, ?_⟩
      · intro j j1 j2
        by_cases hja : j = a
        · exact hja ▸ ha
        · exact m4 j (by omega) j2
      · simp only [List.range', store_first_free, ha, if_false]
        exact m5

/-- Under the table invariant, a table below capacity gets the new descriptor in its lowest
free slot. -/
theorem register_client_below_capacity (s : Server) (new_socket : Int)
    (hlen : s.client_socket.length = MAX_CLIENTS)
    (hcount : s.num_clients = occupied s.client_socket)
    (hroom : occupied s.client_socket < MAX_CLIENTS) :
    ∃ k, k < MAX_CLIENTS ∧ s.client_socket.getD k 0 = 0 ∧
      (∀ j, j < k → s.client_socket.getD j 0 ≠ 0) ∧
      register_client s new_socket =
        ({ client_socket := s.client_socket.set k new_socket,
           num_clients := s.num_clients + 1 }, []) := by
  have hfree : ∃ k, 0 ≤ k ∧ k < 0 + MAX_CLIENTS ∧ s.client_socket.getD k 0 = 0 := by
    obtain ⟨k, hk, hk0⟩ := exists_free_of_occupied_lt s.client_socket (by omega)
    exact ⟨k, Nat.zero_le k, by omega, hk0⟩
  obtain ⟨k, _, k2, k3, k4, k5⟩ := store_first_free_range new_socket s MAX_CLIENTS 0 hfree
  refine ⟨k, by omega, k3, fun j hj => k4 j (Nat.zero_le j) hj, ?_⟩
  have hlt : s.num_clients < (MAX_CLIENTS : Int) := by rw [hcount]; exact_mod_cast hroom
  simp only [register_client, hlt, if_true, List.range_eq_range', k5]

/-! ## Fan-out -/

theorem strip_newline_defined (buffer : List Nat) :
    ∃ b, strip_newline buffer = Except.ok b := by
  unfold strip_newline
  split
  · exact ⟨_, rfl⟩
  · split
    · exact ⟨_, rfl⟩
    · exact ⟨_, rfl⟩

theorem valread_returned_pos (pending : List Nat) (h : pending ≠ []) :
    0 < (ReadOutcome.returned pending).valread := by
  cases pending with
  | nil => exact absurd rfl h
  | cons x xs =>
    simp only [ReadOutcome.valread, BUFFER_SIZE, List.take_succ_cons, List.length_cons]
    omega

theorem serve_slot_message (e : Env) (i : Nat) (s : Server) (pending b : List Nat)
    (hsd : 0 < s.client_socket.getD i 0) (hrd : s.client_socket.getD i 0 ∈ e.readfds)
    (hr : e.reads i = ReadOutcome.returned pending) (hne : pending ≠ [])
    (hb : strip_newline (pending.take BUFFER_SIZE ++ [0]) = Except.ok b) :
    serve_slot e i s = Except.ok (s, relay s.num_clients s.client_socket
      (s.client_socket.getD i 0) (get_client_address (e.getpeername (s.client_socket.getD i 0)))
      b) := by
  have hv := valread_returned_pos pending hne
  have h0 : ¬ (ReadOutcome.returned pending).valread = 0 := by omega
  have h1 : ¬ (ReadOutcome.returned pending).valread < 0 := by omega
  simp only [serve_slot, hsd, hrd, and_self, if_true, hr, h0, h1, if_false,
    ReadOutcome.stored, hb]

/-! ## Claims -/

/-- The pass on a payload that begins with NUL: with peers `[4, 5, 0, 0, 0]`, the four bytes
NUL, `h`, `i`, newline read from descriptor 4 are an empty C string, and descriptor 5 is sent the
identity and a space. -/
theorem nul_first_payload_is_relayed :
    serve_slot (env_reading 4 (ReadOutcome.returned [0, 104, 105, 10])) 0 two_peers =
      Except.ok (two_peers, [Effect.send 5 (text "unknown ")]) :=
  rfl

/-- C2. Admission.  For a table of `MAX_CLIENTS` slots whose counter equals its number of occupied
slots, and a positive accepted descriptor: (a) if the occupied count is below `MAX_CLIENTS`, the
descriptor is stored in the lowest-index free slot `k`, every other slot is unchanged, the counter
grows by exactly 1 (and again equals the occupied count), and nothing is sent or closed;
(b) otherwise the state is unchanged, so the descriptor is stored iff the count is below capacity;
(c) after evicting an occupied slot `i`, the next descriptor goes to the lowest free slot of the
table so obtained, which is at most `i`. -/
theorem admission_spec (s : Server) (new_socket : Int)
    (hlen : s.client_socket.length = MAX_CLIENTS)
    (hcount : s.num_clients = occupied s.client_socket)
    (hnew : 0 < new_socket) :
    (occupied s.client_socket < MAX_CLIENTS →
      ∃ k, k < MAX_CLIENTS ∧ s.client_socket.getD k 0 = 0 ∧
        (∀ j, j < k → s.client_socket.getD j 0 ≠ 0) ∧
        register_client s new_socket =
          ({ client_socket := s.client_socket.set k new_socket,
             num_clients := s.num_clients + 1 }, []) ∧
        (register_client s new_socket).1.client_socket.getD k 0 = new_socket ∧
        (∀ j, j ≠ k → (register_client s new_socket).1.client_socket.getD j 0 =
          s.client_socket.getD j 0) ∧
        (register_client s new_socket).1.num_clients =
          occupied (register_client s new_socket).1.client_socket) ∧
    (¬ occupied s.client_socket < MAX_CLIENTS → (register_client s new_socket).1 = s) ∧
    (∀ i, i < MAX_CLIENTS → s.client_socket.getD i 0 ≠ 0 →
      ∃ k, k ≤ i ∧ (evict s i).1.client_socket.getD k 0 = 0 ∧
        (∀ j, j < k → (evict s i).1.client_socket.getD j 0 ≠ 0) ∧
        register_client (evict s i).1 new_socket =
          ({ client_socket := (evict s i).1.client_socket.set k new_socket,
             num_clients := s.num_clients }, [])) := by
  refine ⟨?_, ?_, ?_⟩
  · intro hroom
    obtain ⟨k, hk, hk0, hlow, hreg⟩ :=
      register_client_below_capacity s new_socket hlen hcount hroom
    refine ⟨k, hk, hk0, hlow, hreg, ?_, ?_, ?_⟩
    · rw [hreg]; exact getD_set_self _ _ _ (by omega)
    · intro j hj; rw [hreg]; exact getD_set_other _ _ _ _ (fun h => hj h.symm)
    · rw [hreg]
      show s.num_clients + 1 = ((occupied (s.client_socket.set k new_socket) : Nat) : Int)
      rw [occupied_set_new s.client_socket k new_socket (by omega) hk0 (by omega), hcount]
      push_cast; rfl
  · intro hfull
    have : ¬ s.num_clients < (MAX_CLIENTS : Int) := by rw [hcount]; exact_mod_cast hfull
    simp only [register_client, this, if_false]
  · intro i hi hocc
    have hset := occupied_set_zero s.client_socket i hocc
    have hle := occupied_le_length s.client_socket
    have hlen1 : (evict s i).1.client_socket.length = MAX_CLIENTS := by
      simp [evict, hlen]
    have hcount1 : (evict s i).1.num_clients = occupied (evict s i).1.client_socket := by
      show s.num_clients - 1 = ((occupied (s.client_socket.set i 0) : Nat) : Int)
      rw [hcount, ← hset]; push_cast; ring
    have hroom1 : occupied (evict s i).1.client_socket < MAX_CLIENTS := by
      show occupied (s.client_socket.set i 0) < MAX_CLIENTS
      omega
    obtain ⟨k, _, hk0, hlow, hreg⟩ :=
      register_client_below_capacity (evict s i).1 new_socket hlen1 hcount1 hroom1
    have hi0 : (evict s i).1.client_socket.getD i 0 = 0 :=
      getD_set_self s.client_socket i 0 (by omega)
    have hki : k ≤ i := by
      by_contra hgt
      exact hlow i (by omega) hi0
    refine ⟨k, hki, hk0, hlow, ?_⟩
    rw [hreg]
    have : (evict s i).1.num_clients + 1 = s.num_clients := by
      show s.num_clients - 1 + 1 = s.num_clients
      ring
    rw [this]

/-- Witness of C2: the table `[4, 0, 7, 9, 0]` with three peers meets the hypotheses, and
descriptor 11 is stored in a free slot, with the counter raised by 1. -/
theorem admission_spec_witness :
    (three_peers.client_socket.length = MAX_CLIENTS ∧
      three_peers.num_clients = occupied three_peers.client_socket ∧ (0 : Int) < 11) ∧
    ∃ k, k < MAX_CLIENTS ∧ three_peers.client_socket.getD k 0 = 0 ∧
      register_client three_peers 11 =
        ({ client_socket := three_peers.client_socket.set k 11,
           num_clients := three_peers.num_clients + 1 }, []) := by
  refine ⟨⟨by decide, by decide, by decide⟩, ?_⟩
  obtain ⟨k, hk, hk0, _, hreg, _⟩ :=
    (admission_spec three_peers 11 (by decide) (by decide) (by decide)).1 (by decide)
  exact ⟨k, hk, hk0, hreg⟩

theorem register_client_counts (s : Server) (new_socket : Int)
    (hlen : s.client_socket.length = MAX_CLIENTS)
    (hcount : s.num_clients = occupied s.client_socket)
    (hnew : 0 < new_socket) (hroom : occupied s.client_socket < MAX_CLIENTS) :
    (register_client s new_socket).1.client_socket.length = MAX_CLIENTS ∧
      (register_client s new_socket).1.num_clients =
        occupied (register_client s new_socket).1.client_socket ∧
      occupied (register_client s new_socket).1.client_socket =
        occupied s.client_socket + 1 := by
  obtain ⟨k, hk, hk0, _, hreg⟩ := register_client_below_capacity s new_socket hlen hcount hroom
  have hocc := occupied_set_new s.client_socket k new_socket (by omega) hk0 (by omega)
  rw [hreg]
  refine ⟨by simp [hlen], ?_, hocc⟩
  show s.num_clients + 1 = ((occupied (s.client_socket.set k new_socket) : Nat) : Int)
  rw [hocc, hcount]; push_cast; rfl

theorem takeWhile_nul_free (l r : List Nat) (h : nul_free l) :
    (l ++ 0 :: r).takeWhile (fun c => c != 0) = l := by
  induction l with
  | nil => simp
  | cons x xs ih =>
    have hx : x ≠ 0 := h x (by simp)
    have hxs : nul_free xs := fun c hc => h c (by simp [hc])
    simp [List.takeWhile_cons, hx, ih hxs]

theorem strlen_nul_free (l r : List Nat) (h : nul_free l) : strlen (l ++ 0 :: r) = l.length := by
  unfold strlen; rw [takeWhile_nul_free l r h]

theorem c_string_nul_free (l r : List Nat) (h : nul_free l) : c_string (l ++ 0 :: r) = l := by
  unfold c_string; rw [takeWhile_nul_free l r h]

theorem getD_append_length (l : List Nat) (x : Nat) (r : List Nat) :
    (l ++ x :: r).getD l.length 0 = x := by
  induction l with
  | nil => simp
  | cons y ys ih => simpa using ih

theorem set_append_length (l : List Nat) (x y : Nat) (r : List Nat) :
    (l ++ x :: r).set l.length y = l ++ y :: r := by
  induction l with
  | nil => simp
  | cons z zs ih => simp

theorem spec_trim_concat (l : List Nat) (x : Nat) :
    spec_trim (l ++ [x]) = if x = 10 then l else l ++ [x] := by
  unfold spec_trim
  simp [List.getLast?_append, List.dropLast_concat]

/-- What line 164 leaves in `buffer` for a NUL-free payload ending in `x`. -/
theorem strip_newline_concat (l : List Nat) (x : Nat) (h : nul_free (l ++ [x])) :
    ∃ b, strip_newline (l ++ [x] ++ [0]) = Except.ok b ∧ c_string b = spec_trim (l ++ [x]) := by
  have hl : nul_free l := fun c hc => h c (by simp [hc])
  have hlen : strlen (l ++ [x] ++ [0]) = l.length + 1 := by
    rw [strlen_nul_free (l ++ [x]) [] h]; simp
  have hshape : l ++ [x] ++ [0] = l ++ x :: [0] := by simp
  unfold strip_newline
  rw [hlen, if_neg (Nat.succ_ne_zero _), Nat.add_sub_cancel, hshape, getD_append_length,
    set_append_length, spec_trim_concat]
  by_cases hx : x = 10
  · rw [if_pos hx, if_pos hx]
    exact ⟨_, rfl, c_string_nul_free l [0] hl⟩
  · rw [if_neg hx, if_neg hx]
    refine ⟨_, rfl, ?_⟩
    have := c_string_nul_free (l ++ [x]) [] h
    simpa using this

theorem strip_newline_nul_free (data : List Nat) (hne : data ≠ []) (h : nul_free data) :
    ∃ b, strip_newline (data ++ [0]) = Except.ok b ∧ c_string b = spec_trim data := by
  obtain ⟨l, x, rfl⟩ : ∃ l x, data = l ++ [x] :=
    ⟨data.dropLast, data.getLast hne, (List.dropLast_append_getLast hne).symm⟩
  exact strip_newline_concat l x h

theorem spec_trim_nul_free (data : List Nat) (h : nul_free data) : nul_free (spec_trim data) := by
  unfold spec_trim
  split
  · exact fun c hc => h c (List.dropLast_subset data hc)
  · exact h

theorem spec_trim_length_le (data : List Nat) : (spec_trim data).length ≤ data.length := by
  unfold spec_trim
  split
  · simp
  · exact le_refl _

/-- The bytes handed to `send` on line 175, when nothing is truncated. -/
theorem broadcast_bytes (sender_addr b : List Nat) (ha : nul_free sender_addr)
    (hfit : (sender_addr ++ [32] ++ c_string b).length ≤ BUFFER_SIZE + 50 - 1) :
    (format_broadcast sender_addr b).take (strlen (format_broadcast sender_addr b)) =
      sender_addr ++ [32] ++ c_string b := by
  have hfree : nul_free (sender_addr ++ [32] ++ c_string b) := by
    intro c hc
    simp only [List.append_assoc, List.mem_append, List.mem_singleton] at hc
    rcases hc with hc | hc | hc
    · exact ha c hc
    · omega
    · have := List.mem_takeWhile_imp hc
      simpa using this
  unfold format_broadcast
  rw [List.take_of_length_le hfit, strlen_nul_free _ [] hfree]
  exact List.take_left _ _

/-! ## The sender identity -/

theorem decimal_digits_nul_free (fuel n : Nat) : nul_free (decimal_digits fuel n) := by
  induction fuel generalizing n with
  | zero => intro c hc; simp [decimal_digits] at hc
  | succ f ih =>
    intro c hc
    unfold decimal_digits at hc
    split at hc
    · simp only [List.mem_singleton] at hc; omega
    · simp only [List.mem_append, List.mem_singleton] at hc
      rcases hc with hc | hc
      · exact ih _ c hc
      · omega

theorem decimal_digits_length (fuel n k : Nat) (hk : 0 < k) (hn : n < 10 ^ k) :
    (decimal_digits fuel n).length ≤ k := by
  induction fuel generalizing n k with
  | zero => simp [decimal_digits]
  | succ f ih =>
    unfold decimal_digits
    split
    · simpa using hk
    · rename_i h10
      obtain ⟨m, rfl⟩ : ∃ m, k = m + 1 := ⟨k - 1, by omega⟩
      have hm : 0 < m := by
        rcases Nat.eq_zero_or_pos m with h0 | h0
        · subst h0; simp at hn; omega
        · exact h0
      have hdiv : n / 10 < 10 ^ m := by
        rw [Nat.div_lt_iff_lt_mul (by decide)]
        rw [pow_succ] at hn; exact hn
      have := ih (n / 10) m hm hdiv
      simp only [List.length_append, List.length_singleton]
      omega

theorem decimal_nul_free (n : Nat) : nul_free (decimal n) := decimal_digits_nul_free _ _

theorem decimal_octet_length (n : Nat) : (decimal (n % 256)).length ≤ 3 :=
  decimal_digits_length _ _ 3 (by decide) (by
    have := Nat.mod_lt n (show 0 < 256 by decide)
    norm_num; omega)

theorem decimal_port_length (n : Nat) : (decimal (n % 65536)).length ≤ 5 :=
  decimal_digits_length _ _ 5 (by decide) (by
    have := Nat.mod_lt n (show 0 < 65536 by decide)
    norm_num; omega)

theorem nul_free_append (a b : List Nat) (ha : nul_free a) (hb : nul_free b) :
    nul_free (a ++ b) := by
  intro c hc
  rcases List.mem_append.mp hc with h | h
  · exact ha c h
  · exact hb c h

/-- The text `get_client_address` writes has no NUL and at most 21 characters, so it fits the
30-byte arrays it is written to. -/
theorem get_client_address_shape (peer : Option SockAddr) :
    nul_free (get_client_address peer) ∧ (get_client_address peer).length ≤ 21 := by
  cases peer with
  | none => exact ⟨by decide, by decide⟩
  | some addr =>
    have hdot : nul_free [46] := by decide
    have hcolon : nul_free [58] := by decide
    refine ⟨?_, ?_⟩
    · unfold get_client_address inet_ntoa
      repeat first
        | exact decimal_nul_free _
        | exact hdot
        | exact hcolon
        | apply nul_free_append
    · have h1 := decimal_octet_length (addr.sin_addr / 2 ^ 24)
      have h2 := decimal_octet_length (addr.sin_addr / 2 ^ 16)
      have h3 := decimal_octet_length (addr.sin_addr / 2 ^ 8)
      have h4 := decimal_octet_length addr.sin_addr
      have h5 := decimal_port_length addr.sin_port
      simp only [get_client_address, inet_ntoa, List.length_append, List.length_singleton]
      omega

/-! ## One pass of the message loop -/

/-- A NUL-free payload of 1 to `BUFFER_SIZE` bytes is relayed as identity, space, trimmed
payload. -/
theorem serve_slot_wire (e : Env) (i : Nat) (s : Server) (payload : List Nat)
    (hsd : 0 < s.client_socket.getD i 0) (hrd : s.client_socket.getD i 0 ∈ e.readfds)
    (hr : e.reads i = ReadOutcome.returned payload)
    (h1 : 1 ≤ payload.length) (h2 : payload.length ≤ BUFFER_SIZE) (hfree : nul_free payload) :
    serve_slot e i s = Except.ok (s,
      (relay_slots s.num_clients s.client_socket (s.client_socket.getD i 0)).map
        (fun j => Effect.send (s.client_socket.getD j 0)
          (get_client_address (e.getpeername (s.client_socket.getD i 0)) ++ [32] ++
            spec_trim payload))) := by
  have hne : payload ≠ [] := by
    intro h; rw [h] at h1; simp at h1
  have htake : payload.take BUFFER_SIZE = payload := List.take_of_length_le h2
  obtain ⟨b, hb, hcs⟩ := strip_newline_nul_free payload hne hfree
  obtain ⟨ha, hal⟩ := get_client_address_shape (e.getpeername (s.client_socket.getD i 0))
  have hfit : (get_client_address (e.getpeername (s.client_socket.getD i 0)) ++ [32] ++
      c_string b).length ≤ BUFFER_SIZE + 50 - 1 := by
    have := spec_trim_length_le payload
    simp only [hcs, List.length_append, List.length_singleton, BUFFER_SIZE] at h2 ⊢
    omega
  have hbytes := broadcast_bytes _ b ha hfit
  rw [serve_slot_message e i s payload b hsd hrd hr hne (by rw [htake]; exact hb)]
  simp only [relay, hbytes, hcs]

/-- C5. Zero-length read.  For every table and every slot `i` that holds a positive descriptor,
is reported readable and whose `read` returns 0: the pass for slot `i` returns, closes that
descriptor and does nothing else to the outside (no `send`), sets slot `i` to 0, lowers
`num_clients` by exactly 1 and leaves every other slot (and the length of the table) unchanged. -/
theorem zero_read_spec (e : Env) (i : Nat) (s : Server)
    (hsd : 0 < s.client_socket.getD i 0) (hrd : s.client_socket.getD i 0 ∈ e.readfds)
    (hr : (e.reads i).valread = 0) :
    ∃ s1, serve_slot e i s = Except.ok (s1, [Effect.close (s.client_socket.getD i 0)]) ∧
      s1.client_socket.getD i 0 = 0 ∧
      s1.num_clients = s.num_clients - 1 ∧
      (∀ j, j ≠ i → s1.client_socket.getD j 0 = s.client_socket.getD j 0) ∧
      s1.client_socket.length = s.client_socket.length := by
  have hi : i < s.client_socket.length := by
    by_contra hge
    have := getD_eq_zero_of_le s.client_socket i (by omega)
    omega
  refine ⟨(evict s i).1, ?_, getD_set_self _ _ _ hi, rfl, ?_, by simp [evict]⟩
  · simp only [serve_slot, hsd, hrd, and_self, if_true, hr, evict]
  · intro j hj
    exact getD_set_other _ _ _ _ (fun h => hj h.symm)

/-- Witness of C5: with peers `[4, 5, 0, 0, 0]`, end of stream on descriptor 4 (slot 0) leaves
`[0, 5, 0, 0, 0]` with one peer, and the only effect is `close(4)`. -/
theorem zero_read_spec_witness :
    ((0 : Int) < two_peers.client_socket.getD 0 0 ∧
      two_peers.client_socket.getD 0 0 ∈ (env_reading 4 (ReadOutcome.returned [])).readfds ∧
      ((env_reading 4 (ReadOutcome.returned [])).reads 0).valread = 0) ∧
    ∃ s1, serve_slot (env_reading 4 (ReadOutcome.returned [])) 0 two_peers =
        Except.ok (s1, [Effect.close 4]) ∧ s1.client_socket.getD 0 0 = 0 ∧
      s1.num_clients = 1 := by
  refine ⟨⟨by decide, by decide, by decide⟩, ?_⟩
  obtain ⟨s1, h1, h2, h3, _⟩ := zero_read_spec (env_reading 4 (ReadOutcome.returned [])) 0
    two_peers (by decide) (by decide) (by decide)
  exact ⟨s1, h1, h2, h3⟩

/-- C6. Relayed wire format.  For every payload of 1 to 1024 bytes without a NUL read from a
readable slot `i`, and whatever `getpeername` answers: the pass for slot `i` returns, leaves
the state unchanged, and sends to each recipient exactly the sender identity, one space (32) and
the payload with a single trailing newline (10) removed if present, with nothing after it and
nothing truncated.  The identity is at most 21 characters, within the 29 that fit `sender_addr`;
and for any NUL-free identity of at most 29 characters lines 164-175 produce the same format.
Only one newline is removed: the payload `a`, newline, newline becomes `a`, newline. -/
theorem wire_format_spec (e : Env) (i : Nat) (s : Server) (payload : List Nat)
    (hsd : 0 < s.client_socket.getD i 0) (hrd : s.client_socket.getD i 0 ∈ e.readfds)
    (hr : e.reads i = ReadOutcome.returned payload)
    (h1 : 1 ≤ payload.length) (h2 : payload.length ≤ BUFFER_SIZE) (hfree : nul_free payload) :
    serve_slot e i s = Except.ok (s,
      (relay_slots s.num_clients s.client_socket (s.client_socket.getD i 0)).map
        (fun j => Effect.send (s.client_socket.getD j 0)
          (get_client_address (e.getpeername (s.client_socket.getD i 0)) ++ [32] ++
            spec_trim payload))) ∧
      (get_client_address (e.getpeername (s.client_socket.getD i 0))).length ≤ 29 ∧
      (∀ sender_addr : List Nat, nul_free sender_addr → sender_addr.length ≤ 29 →
        ∃ b, strip_newline (payload ++ [0]) = Except.ok b ∧
          relay s.num_clients s.client_socket (s.client_socket.getD i 0) sender_addr b =
            (relay_slots s.num_clients s.client_socket (s.client_socket.getD i 0)).map
              (fun j => Effect.send (s.client_socket.getD j 0)
                (sender_addr ++ [32] ++ spec_trim payload))) ∧
      spec_trim [97, 10, 10] = [97, 10] := by
  refine ⟨serve_slot_wire e i s payload hsd hrd hr h1 h2 hfree, ?_, ?_, by decide⟩
  · have := (get_client_address_shape (e.getpeername (s.client_socket.getD i 0))).2
    omega
  · intro sender_addr ha hal
    have hne : payload ≠ [] := by
      intro h; rw [h] at h1; simp at h1
    obtain ⟨b, hb, hcs⟩ := strip_newline_nul_free payload hne hfree
    have hfit : (sender_addr ++ [32] ++ c_string b).length ≤ BUFFER_SIZE + 50 - 1 := by
      have := spec_trim_length_le payload
      simp only [hcs, List.length_append, List.length_singleton, BUFFER_SIZE] at h2 ⊢
      omega
    refine ⟨b, hb, ?_⟩
    simp only [relay, broadcast_bytes sender_addr b ha hfit, hcs]

/-- Witness of C6: descriptor 4 in slot 0 of `[4, 5, 0, 0, 0]` sends `hi`, newline; the peer in
slot 1 is sent `unknown hi` (the identity when `getpeername` fails). -/
theorem wire_format_spec_witness :
    ((0 : Int) < two_peers.client_socket.getD 0 0 ∧
      two_peers.client_socket.getD 0 0 ∈
        (env_reading 4 (ReadOutcome.returned (text "hi\n"))).readfds ∧
      1 ≤ (text "hi\n").length ∧ (text "hi\n").length ≤ BUFFER_SIZE ∧
      nul_free (text "hi\n")) ∧
    serve_slot (env_reading 4 (ReadOutcome.returned (text "hi\n"))) 0 two_peers =
      Except.ok (two_peers, [Effect.send 5 (text "unknown hi")]) :=
  ⟨⟨by decide, by decide, by decide, by decide, by decide⟩,
    (wire_format_spec (env_reading 4 (ReadOutcome.returned (text "hi\n"))) 0 two_peers
      (text "hi\n") (by decide) (by decide) rfl (by decide) (by decide) (by decide)).1.trans
      rfl⟩

/-- C8, the code at the failing input: with peers `[4, 5, 0, 0, 0]`, a failed `read` (return
value -1) on descriptor 4 does not take the eviction branch (which is guarded by
`valread == 0`); the pass goes on to `buffer[valread] = 0`, a store outside `buffer`. -/
theorem read_failure_not_evicted :
    ((env_reading 4 ReadOutcome.failed).reads 0).valread = -1 ∧
    serve_slot (env_reading 4 ReadOutcome.failed) 0 two_peers =
      Except.error Abort.out_of_bounds ∧
    serve_slot (env_reading 4 ReadOutcome.failed) 0 two_peers ≠ Except.ok (evict two_peers 0) :=
  ⟨rfl, rfl, by
    intro h
    have h2 : serve_slot (env_reading 4 ReadOutcome.failed) 0 two_peers =
      Except.error Abort.out_of_bounds := rfl
    rw [h2] at h
    cases h⟩

/-! ## The table invariant -/

theorem positive_set (cs : List Int) (i : Nat) (v : Int) (h : positive_slots cs) (hv : 0 ≤ v) :
    positive_slots (cs.set i v) := by
  intro x hx
  rcases List.mem_or_eq_of_mem_set hx with hx | hx
  · exact h x hx
  · rw [hx]; exact hv

theorem distinct_set_zero (cs : List Int) (i : Nat) (h : distinct_slots cs) :
    distinct_slots (cs.set i 0) := by
  intro j hj k hk hne heq
  rw [List.length_set] at hj hk
  have hji : i ≠ j := by
    intro hij
    subst hij
    exact hne (getD_set_self cs i 0 hj)
  rw [getD_set_other cs i j 0 hji] at hne heq
  have hki : i ≠ k := by
    intro hik
    subst hik
    rw [getD_set_self cs i 0 hk] at heq
    exact hne heq
  rw [getD_set_other cs i k 0 hki] at heq
  exact h j hj k hk hne heq

theorem distinct_set_new (cs : List Int) (i : Nat) (v : Int) (h : distinct_slots cs)
    (hv : v ∉ cs) : distinct_slots (cs.set i v) := by
  intro j hj k hk hne heq
  rw [List.length_set] at hj hk
  by_cases hji : i = j
  · subst hji
    by_cases hki : i = k
    · exact hki
    · rw [getD_set_self cs i v hj, getD_set_other cs i k v hki] at heq
      exact absurd (heq ▸ getD_mem_of_lt cs k hk) hv
  · rw [getD_set_other cs i j v hji] at hne heq
    by_cases hki : i = k
    · subst hki
      rw [getD_set_self cs i v hk] at heq
      exact absurd (heq ▸ getD_mem_of_lt cs j hj) hv
    · rw [getD_set_other cs i k v hki] at heq
      exact h j hj k hk hne heq

theorem register_client_invariant (s : Server) (new_socket : Int) (h : table_invariant s)
    (hnew : 0 < new_socket) (hfresh : new_socket ∉ s.client_socket) :
    table_invariant (register_client s new_socket).1 := by
  obtain ⟨hlen, hcount, hpos, hdist⟩ := h
  by_cases hroom : occupied s.client_socket < MAX_CLIENTS
  · obtain ⟨k, _, _, _, hreg⟩ := register_client_below_capacity s new_socket hlen hcount hroom
    obtain ⟨c1, c2, _⟩ := register_client_counts s new_socket hlen hcount hnew hroom
    refine ⟨c1, c2, ?_, ?_⟩
    · rw [hreg]; exact positive_set _ _ _ hpos (by omega)
    · rw [hreg]; exact distinct_set_new _ _ _ hdist hfresh
  · have : ¬ s.num_clients < (MAX_CLIENTS : Int) := by rw [hcount]; exact_mod_cast hroom
    simp only [register_client, this, if_false]
    exact ⟨hlen, hcount, hpos, hdist⟩

theorem accept_phase_invariant (master_socket : Int) (s s1 : Server) (e : Env)
    (eff : List Effect) (h : table_invariant s)
    (hacc : master_socket ∈ e.readfds → 0 < e.accepted ∧ e.accepted ∉ s.client_socket)
    (hstep : accept_phase master_socket s e = Except.ok (s1, eff)) : table_invariant s1 := by
  unfold accept_phase at hstep
  by_cases hm : master_socket ∈ e.readfds
  · obtain ⟨hnew, hfresh⟩ := hacc hm
    have hn : ¬ e.accepted < 0 := by omega
    simp only [hm, if_true, hn, if_false, Except.ok.injEq] at hstep
    have : s1 = (register_client s e.accepted).1 := by rw [hstep]
    rw [this]
    exact register_client_invariant s e.accepted h hnew hfresh
  · simp only [hm, if_false, Except.ok.injEq, Prod.mk.injEq] at hstep
    rw [← hstep.1]; exact h

theorem evict_invariant (s : Server) (i : Nat) (h : table_invariant s)
    (hocc : s.client_socket.getD i 0 ≠ 0) : table_invariant (evict s i).1 := by
  obtain ⟨hlen, hcount, hpos, hdist⟩ := h
  have hset := occupied_set_zero s.client_socket i hocc
  refine ⟨by simp [evict, hlen], ?_, positive_set _ _ _ hpos (le_refl 0),
    distinct_set_zero _ _ hdist⟩
  show s.num_clients - 1 = ((occupied (s.client_socket.set i 0) : Nat) : Int)
  rw [hcount, ← hset]; push_cast; ring

theorem serve_slot_invariant (e : Env) (i : Nat) (s s1 : Server) (eff : List Effect)
    (h : table_invariant s) (hstep : serve_slot e i s = Except.ok (s1, eff)) :
    table_invariant s1 := by
  unfold serve_slot at hstep
  simp only at hstep
  split at hstep
  · rename_i hready
    split at hstep
    · simp only [Except.ok.injEq] at hstep
      have : s1 = (evict s i).1 := by rw [hstep]
      rw [this]
      exact evict_invariant s i h (by omega)
    · split at hstep
      · cases hstep
      · split at hstep
        · cases hstep
        · simp only [Except.ok.injEq, Prod.mk.injEq] at hstep
          rw [← hstep.1]; exact h
  · simp only [Except.ok.injEq, Prod.mk.injEq] at hstep
    rw [← hstep.1]; exact h

theorem message_loop_invariant (e : Env) (idx : List Nat) (s s1 : Server) (eff : List Effect)
    (h : table_invariant s) (hstep : message_loop e idx s = Except.ok (s1, eff)) :
    table_invariant s1 := by
  induction idx generalizing s eff with
  | nil =>
    simp only [message_loop, Except.ok.injEq, Prod.mk.injEq] at hstep
    rw [← hstep.1]; exact h
  | cons i rest ih =>
    unfold message_loop at hstep
    split at hstep
    · cases hstep
    · rename_i sa ea hserve
      split at hstep
      · cases hstep
      · rename_i sb eb hrest
        simp only [Except.ok.injEq, Prod.mk.injEq] at hstep
        obtain ⟨hsb, _⟩ := hstep
        subst hsb
        exact ih sa eb (serve_slot_invariant e i s sa ea h hserve) hrest

theorem iteration_invariant (master_socket : Int) (s s1 : Server) (e : Env)
    (eff : List Effect) (h : table_invariant s)
    (hacc : master_socket ∈ e.readfds → 0 < e.accepted ∧ e.accepted ∉ s.client_socket)
    (hstep : iteration master_socket s e = Except.ok (s1, eff)) : table_invariant s1 := by
  unfold iteration at hstep
  split at hstep
  · cases hstep
  · rename_i sa ea haccept
    split at hstep
    · cases hstep
    · rename_i sb eb hloop
      simp only [Except.ok.injEq, Prod.mk.injEq] at hstep
      rw [← hstep.1]
      exact message_loop_invariant e _ sa sb eb
        (accept_phase_invariant master_socket s sa e ea h hacc haccept) hloop

theorem reachable_invariant (master_socket : Int) (s : Server)
    (h : Reachable master_socket s) : table_invariant s := by
  induction h with
  | init => exact ⟨by decide, by decide, by decide, by decide⟩
  | step s s1 e eff _ hacc hstep ih => exact iteration_invariant master_socket s s1 e eff ih hacc hstep

/-- C4. Connection-table invariant.  In every state reachable from the empty table through
iterations of the event loop in which each accepted descriptor is positive and different from
every descriptor in the table: `num_clients` equals the number of occupied (non-zero) slots, that
number is at most `MAX_CLIENTS`, no two occupied slots hold the same descriptor (and the table
keeps its `MAX_CLIENTS` slots, each 0 or positive). -/
theorem table_invariant_spec (master_socket : Int) (s : Server)
    (h : Reachable master_socket s) :
    s.num_clients = occupied s.client_socket ∧
      occupied s.client_socket ≤ MAX_CLIENTS ∧
      distinct_slots s.client_socket ∧
      s.client_socket.length = MAX_CLIENTS ∧
      positive_slots s.client_socket := by
  obtain ⟨hlen, hcount, hpos, hdist⟩ := reachable_invariant master_socket s h
  exact ⟨hcount, hlen ▸ occupied_le_length s.client_socket, hdist, hlen, hpos⟩

/-- Witness of C4: accepting descriptors 4 and then 5 from the empty table reaches
`[4, 5, 0, 0, 0]` with `num_clients = 2`, where the invariant holds. -/
theorem table_invariant_spec_witness :
    Reachable 3 two_peers ∧ two_peers.num_clients = occupied two_peers.client_socket ∧
      occupied two_peers.client_socket ≤ MAX_CLIENTS ∧ distinct_slots two_peers.client_socket :=
  have h1 : Reachable 3 { client_socket := [4, 0, 0, 0, 0], num_clients := 1 } :=
    Reachable.step Server.init _ (env_accepting 3 4) [] Reachable.init
      (fun _ => ⟨by decide, by decide⟩) rfl
  have h2 : Reachable 3 two_peers :=
    Reachable.step _ _ (env_accepting 3 5) [] h1 (fun _ => ⟨by decide, by decide⟩) rfl
  ⟨h2, (table_invariant_spec 3 two_peers h2).1, (table_invariant_spec 3 two_peers h2).2.1,
    (table_invariant_spec 3 two_peers h2).2.2.1⟩

/-! ## Completion of an iteration -/

theorem serve_slot_defined (e : Env) (i : Nat) (s : Server)
    (h : ∃ pending, e.reads i = ReadOutcome.returned pending) :
    ∃ r, serve_slot e i s = Except.ok r := by
  obtain ⟨pending, hr⟩ := h
  unfold serve_slot
  simp only
  split
  · split
    · exact ⟨_, rfl⟩
    · rename_i hv
      have hne : pending ≠ [] := by
        intro hnil
        apply hv
        rw [hr, hnil]; rfl
      have hpos := valread_returned_pos pending hne
      rw [← hr] at hpos
      rw [if_neg (by omega)]
      obtain ⟨b, hb⟩ := strip_newline_defined ((e.reads i).stored ++ [0])
      simp only [hb]
      exact ⟨_, rfl⟩
  · exact ⟨_, rfl⟩

theorem message_loop_defined (e : Env) (idx : List Nat) (s : Server) (h : reads_defined e) :
    ∃ r, message_loop e idx s = Except.ok r := by
  induction idx generalizing s with
  | nil => exact ⟨_, rfl⟩
  | cons i rest ih =>
    obtain ⟨⟨sa, ea⟩, hserve⟩ := serve_slot_defined e i s (h i)
    obtain ⟨⟨sb, eb⟩, hrest⟩ := ih sa
    exact ⟨(sb, ea ++ eb), by simp only [message_loop, hserve, hrest]⟩

theorem iteration_defined (master_socket : Int) (s : Server) (e : Env)
    (hreads : reads_defined e) (hno : ¬ (master_socket ∈ e.readfds ∧ e.accepted < 0)) :
    ∃ s1 eff, iteration master_socket s e = Except.ok (s1, eff) := by
  have hacc : ∃ sa ea, accept_phase master_socket s e = Except.ok (sa, ea) := by
    unfold accept_phase
    by_cases hm : master_socket ∈ e.readfds
    · have hn : ¬ e.accepted < 0 := fun hneg => hno ⟨hm, hneg⟩
      rw [if_pos hm, if_neg hn]
      exact ⟨_, _, rfl⟩
    · rw [if_neg hm]
      exact ⟨_, _, rfl⟩
  obtain ⟨sa, ea, ha⟩ := hacc
  obtain ⟨⟨sb, eb⟩, hb⟩ := message_loop_defined e (List.range MAX_CLIENTS) sa hreads
  exact ⟨sb, ea ++ eb ++ announce e.activity, by simp only [iteration, ha, hb]⟩

/-! ## Signals -/

theorem raises_sigpipe_quiet (raised : Int → Bool) (eff : List Effect)
    (h : ∀ fd, raised fd = false) : raises_sigpipe raised eff = false := by
  unfold raises_sigpipe
  rw [List.any_eq_false]
  intro x _
  cases x with
  | send fd bytes => simp [h fd]
  | close fd => simp
  | sendto bytes => simp

theorem deliver_quiet (raised : Int → Bool) (r : Except Abort (Server × List Effect))
    (h : ∀ fd, raised fd = false) : deliver raised r = r := by
  unfold deliver
  split
  · rfl
  · rw [raises_sigpipe_quiet raised _ h]
    rfl

theorem process_messages_quiet (e : Env) (g : Signals) (idx : List Nat) (s : Server)
    (h : ∀ i fd, g.relay_send i fd = false) :
    process_messages e g idx s = message_loop e idx s := by
  induction idx generalizing s with
  | nil => rfl
  | cons i rest ih =>
    unfold process_messages message_loop
    rw [deliver_quiet (g.relay_send i) _ (h i)]
    split
    · rfl
    · rw [ih]

/-- When no `send` raises `SIGPIPE` the iteration with signals is `iteration`. -/
theorem process_iteration_quiet (master_socket : Int) (s : Server) (e : Env) (g : Signals)
    (h : no_sigpipe g) : process_iteration master_socket s e g = iteration master_socket s e := by
  unfold process_iteration iteration
  rw [deliver_quiet (fun _ => g.reject_send) _ (fun _ => h.1)]
  split
  · rfl
  · rw [process_messages_quiet e g _ _ h.2]

theorem deliver_ok (raised : Int → Bool) (r : Except Abort (Server × List Effect))
    (x : Server × List Effect) (h : deliver raised r = Except.ok x) : r = Except.ok x := by
  unfold deliver at h
  split at h
  · cases h
  · split at h
    · cases h
    · exact h

theorem process_messages_ok (e : Env) (g : Signals) (idx : List Nat) (s : Server)
    (x : Server × List Effect) (h : process_messages e g idx s = Except.ok x) :
    message_loop e idx s = Except.ok x := by
  induction idx generalizing s x with
  | nil => exact h
  | cons i rest ih =>
    unfold process_messages at h
    split at h
    · cases h
    · rename_i sa ea hpass
      split at h
      · cases h
      · rename_i sb eb hrest
        simp only [message_loop, deliver_ok _ _ _ hpass, ih sa _ hrest]
        exact h

/-- An iteration that completes with signals is a completed `iteration` with the same result:
the states the process goes through are among those of `Reachable`. -/
theorem process_iteration_ok (master_socket : Int) (s : Server) (e : Env) (g : Signals)
    (x : Server × List Effect) (h : process_iteration master_socket s e g = Except.ok x) :
    iteration master_socket s e = Except.ok x := by
  unfold process_iteration at h
  split at h
  · cases h
  · rename_i sa ea hacc
    split at h
    · cases h
    · rename_i sb eb hloop
      simp only [iteration, deliver_ok _ _ _ hacc, process_messages_ok e g _ sa _ hloop]
      exact h

/-- The model at a `send` that raises `SIGPIPE`: with peers `[4, 5, 0, 0, 0]`, descriptor 4
sends `hi` and the relay to descriptor 5 raises the signal; the process dies there. -/
theorem sigpipe_ends_process :
    process_iteration 3 two_peers (env_reading 4 (ReadOutcome.returned (text "hi\n")))
      (broken_pipe 5) = Except.error (Abort.signal SIGPIPE) :=
  rfl

/-- Counterexample to C9 as stated: with the listener (descriptor 3) readable and `accept`
returning -1, the iteration ends in `exit(EXIT_FAILURE)`, also when every `send` returns. -/
theorem accept_failure_exits :
    iteration 3 two_peers (env_accepting 3 (-1)) = Except.error (Abort.exit EXIT_FAILURE) ∧
      (¬ ∃ r, iteration 3 two_peers (env_accepting 3 (-1)) = Except.ok r) ∧
      process_iteration 3 two_peers (env_accepting 3 (-1)) quiet =
        Except.error (Abort.exit EXIT_FAILURE) :=
  ⟨rfl, (by
    rintro ⟨r, hr⟩
    have h : iteration 3 two_peers (env_accepting 3 (-1)) =
      Except.error (Abort.exit EXIT_FAILURE) := rfl
    rw [h] at hr
    cases hr), rfl⟩

/-- C9, amended.  For every state, every result of `select` (return value and `readfds`) and of
`getpeername`, whatever `sendto` and `close` return, when every `read` returns 0 or more bytes
and every `send` returns to the caller (with a byte count or an error, no `SIGPIPE` raised): if
the listener is readable and `accept` fails the process ends with `exit(EXIT_FAILURE)`; in every
other case the iteration completes with a next state, from which the loop goes on. -/
theorem loop_continues_spec (master_socket : Int) (s : Server) (e : Env) (g : Signals)
    (hreads : reads_defined e) (hsig : no_sigpipe g) :
    ((master_socket ∈ e.readfds ∧ e.accepted < 0) →
      process_iteration master_socket s e g = Except.error (Abort.exit EXIT_FAILURE)) ∧
    (¬ (master_socket ∈ e.readfds ∧ e.accepted < 0) →
      ∃ s1 eff, process_iteration master_socket s e g = Except.ok (s1, eff)) := by
  rw [process_iteration_quiet master_socket s e g hsig]
  refine ⟨?_, ?_⟩
  · rintro ⟨hm, hneg⟩
    simp only [iteration, accept_phase, hm, hneg, if_true]
  · intro hno
    exact iteration_defined master_socket s e hreads hno

/-- Witness of C9, amended: with the listener (descriptor 3) readable, `accept` returning 6
and every `send` returning, the iteration from `[4, 5, 0, 0, 0]` completes. -/
theorem loop_continues_spec_witness :
    (reads_defined (env_accepting 3 6) ∧ no_sigpipe quiet) ∧
    ∃ s1 eff, process_iteration 3 two_peers (env_accepting 3 6) quiet = Except.ok (s1, eff) :=
  have h : reads_defined (env_accepting 3 6) := fun _ => ⟨[], rfl⟩
  have hq : no_sigpipe quiet := ⟨rfl, fun _ _ => rfl⟩
  ⟨⟨h, hq⟩, (loop_continues_spec 3 two_peers (env_accepting 3 6) quiet h hq).2 (by decide)⟩

/-! ## The discovery beacon -/

theorem relay_no_sendto (n : Int) (cs : List Int) (sd : Int) (a b : List Nat) :
    ∀ x ∈ relay n cs sd a b, is_sendto x = false := by
  intro x hx
  unfold relay at hx
  obtain ⟨j, _, rfl⟩ := List.mem_map.mp hx
  rfl

theorem register_client_no_sendto (s : Server) (new_socket : Int) :
    ∀ x ∈ (register_client s new_socket).2, is_sendto x = false := by
  intro x hx
  unfold register_client at hx
  split at hx
  · simp at hx
  · simp only [List.mem_cons, List.mem_singleton, List.not_mem_nil, or_false] at hx
    rcases hx with rfl | rfl <;> rfl

theorem accept_phase_no_sendto (master_socket : Int) (s s1 : Server) (e : Env)
    (eff : List Effect) (hstep : accept_phase master_socket s e = Except.ok (s1, eff)) :
    ∀ x ∈ eff, is_sendto x = false := by
  unfold accept_phase at hstep
  split at hstep
  · split at hstep
    · cases hstep
    · simp only [Except.ok.injEq] at hstep
      have : eff = (register_client s e.accepted).2 := by rw [hstep]
      rw [this]
      exact register_client_no_sendto s e.accepted
  · simp only [Except.ok.injEq, Prod.mk.injEq] at hstep
    rw [← hstep.2]; simp

theorem serve_slot_no_sendto (e : Env) (i : Nat) (s s1 : Server) (eff : List Effect)
    (hstep : serve_slot e i s = Except.ok (s1, eff)) : ∀ x ∈ eff, is_sendto x = false := by
  unfold serve_slot at hstep
  simp only at hstep
  split at hstep
  · split at hstep
    · simp only [evict, Except.ok.injEq, Prod.mk.injEq] at hstep
      rw [← hstep.2]
      intro x hx
      simp only [List.mem_singleton] at hx
      rw [hx]; rfl
    · split at hstep
      · cases hstep
      · split at hstep
        · cases hstep
        · simp only [Except.ok.injEq, Prod.mk.injEq] at hstep
          rw [← hstep.2]
          exact relay_no_sendto _ _ _ _ _
  · simp only [Except.ok.injEq, Prod.mk.injEq] at hstep
    rw [← hstep.2]; simp

theorem message_loop_no_sendto (e : Env) (idx : List Nat) (s s1 : Server) (eff : List Effect)
    (hstep : message_loop e idx s = Except.ok (s1, eff)) : ∀ x ∈ eff, is_sendto x = false := by
  induction idx generalizing s eff with
  | nil =>
    simp only [message_loop, Except.ok.injEq, Prod.mk.injEq] at hstep
    rw [← hstep.2]; simp
  | cons i rest ih =>
    unfold message_loop at hstep
    split at hstep
    · cases hstep
    · rename_i sa ea hserve
      split at hstep
      · cases hstep
      · rename_i sb eb hrest
        simp only [Except.ok.injEq, Prod.mk.injEq] at hstep
        obtain ⟨hsb, heff⟩ := hstep
        subst hsb
        rw [← heff]
        intro x hx
        rcases List.mem_append.mp hx with hx | hx
        · exact serve_slot_no_sendto e i s sa ea hserve x hx
        · exact ih sa eb hrest x hx

theorem message_loop_idle (e : Env) (idx : List Nat) (s : Server) (h : e.readfds = []) :
    message_loop e idx s = Except.ok (s, []) := by
  induction idx with
  | nil => rfl
  | cons i rest ih =>
    have hserve : serve_slot e i s = Except.ok (s, []) := by
      simp [serve_slot, h]
    simp only [message_loop, hserve, ih, List.append_nil]

theorem filter_sendto_none (l : List Effect) (h : ∀ x ∈ l, is_sendto x = false) :
    l.filter is_sendto = [] := by
  rw [List.filter_eq_nil_iff]
  intro x hx
  rw [h x hx]; simp

/-- C10. Discovery beacon.  An iteration whose `select` returned 0 with `readfds` cleared (a pure
timeout) completes, its only effect is one `sendto` of the beacon, and the state (table and
counter) is unchanged.  In every iteration that completes, the datagrams sent are exactly one
beacon if `select` returned 0 and none otherwise (so none when readiness was reported).  The
beacon is the 16 bytes `CHAT_SERVER_HERE`, none of them NUL. -/
theorem beacon_spec (master_socket : Int) (s : Server) (e : Env) :
    (e.activity = 0 → e.readfds = [] →
      iteration master_socket s e =
        Except.ok (s, [Effect.sendto (text "CHAT_SERVER_HERE")])) ∧
    (∀ s1 eff, iteration master_socket s e = Except.ok (s1, eff) →
      eff.filter is_sendto =
        if e.activity = 0 then [Effect.sendto (text "CHAT_SERVER_HERE")] else []) ∧
    (text "CHAT_SERVER_HERE").length = 16 ∧ nul_free (text "CHAT_SERVER_HERE") := by
  have hmsg : DISCOVERY_MSG.take (strlen DISCOVERY_MSG) = text "CHAT_SERVER_HERE" := by decide
  refine ⟨?_, ?_, by decide, by decide⟩
  · intro h0 hfds
    have hacc : accept_phase master_socket s e = Except.ok (s, []) := by
      simp [accept_phase, hfds]
    simp only [iteration, hacc, message_loop_idle e _ s hfds, announce, h0, if_true, hmsg,
      List.append_nil, List.nil_append]
  · intro s1 eff hstep
    unfold iteration at hstep
    split at hstep
    · cases hstep
    · rename_i sa ea haccept
      split at hstep
      · cases hstep
      · rename_i sb eb hloop
        simp only [Except.ok.injEq, Prod.mk.injEq] at hstep
        rw [← hstep.2, List.filter_append, List.filter_append,
          filter_sendto_none ea (accept_phase_no_sendto master_socket s sa e ea haccept),
          filter_sendto_none eb (message_loop_no_sendto e _ sa sb eb hloop)]
        by_cases h0 : e.activity = 0
        · simp only [announce, h0, if_true, hmsg, List.nil_append]
          rfl
        · simp only [announce, h0, if_false, List.nil_append]
          rfl

end ChatServer
